import Mathlib

/-!
Shallow embedding of grub-core/commands/efi/efibootvars.c.

The module manages the UEFI boot-configuration variables BootOrder, BootNext
and BootXXXX.  The firmware variable store, GRUB's string/number utilities
(grub_strncpy, grub_strtoul, grub_isxdigit) and the UTF-16 to UTF-8 converter
are declared in headers that are not part of this checkout; those are modelled
from the specification's interface descriptions, each marked with a doc
comment starting with "Modelled from the spec".  Everything else is a direct
translation of the C source.

C strings are lists of characters (the terminating NUL is implicit: a list
models exactly the characters before the terminator).  Byte buffers are lists
of naturals; 16-bit firmware values are stored as two little-endian bytes.
-/

namespace GrubEfi

/-- A C string: the characters strictly before the terminating NUL. -/
abbrev CStr := List Char

/-- A raw byte buffer as returned by the firmware variable store. -/
abbrev Buf := List Nat

/-- Modelled from the spec: the firmware variable store interface of section 6.
`get_variable(name, guid) -> (buffer, size) | absent`.  All accesses in this
module use the single global vendor GUID, so the store maps a variable name to
its byte contents, `Option.none` meaning absent (or unreadable).  Absence does
not set the ambient error status. -/
abbrev Store := CStr → Option Buf

/-- GRUB error statuses reachable from this module. -/
inductive GrubErr where
  | none
  | badArgument
  | badNumber
  deriving DecidableEq

/-- Modelled from the spec: grub_isxdigit (declared in grub/misc.h, not under
src/) recognises the hexadecimal digit characters, case-insensitively. -/
def isxdigit (c : Char) : Bool :=
  (decide ('0' ≤ c) && decide (c ≤ '9'))
    || (decide ('a' ≤ c) && decide (c ≤ 'f'))
    || (decide ('A' ≤ c) && decide (c ≤ 'F'))

/-- Modelled from the spec: the numeric value of a hexadecimal digit character,
as computed by the host hex parser (meaningful only when `isxdigit` holds). -/
def hexDigitVal (c : Char) : Nat :=
  if '0' ≤ c ∧ c ≤ '9' then c.toNat - '0'.toNat
  else if 'a' ≤ c ∧ c ≤ 'f' then c.toNat - 'a'.toNat + 10
  else if 'A' ≤ c ∧ c ≤ 'F' then c.toNat - 'A'.toNat + 10
  else 0

/-- Accumulating loop of the hex parser: consume the maximal run of leading
hexadecimal digits. -/
def strtoulHexAux : CStr → Nat → Nat
  | [], acc => acc
  | c :: rest, acc =>
      if isxdigit c then strtoulHexAux rest (acc * 16 + hexDigitVal c) else acc

/-- Modelled from the spec: grub_strtoul with base 16 and a NULL end pointer
(declared in grub/misc.h, not under src/).  Standard strtoul semantics: the
value of the maximal run of leading hexadecimal digits; when no leading digit
exists (in particular on the empty string) the parse fails, which the caller
observes through the ambient error status (`Option.none` here).  Trailing
non-digit characters are ignored without error. -/
def grub_strtoul_hex (s : CStr) : Option Nat :=
  match s with
  | [] => Option.none
  | c :: _ => if isxdigit c then some (strtoulHexAux s 0) else Option.none

/-- The lowercase hexadecimal digit character for a value below 16. -/
def hexChar (d : Nat) : Char :=
  if d < 10 then Char.ofNat ('0'.toNat + d) else Char.ofNat ('a'.toNat + (d - 10))

/-- printf "%04x" applied to a 16-bit value: exactly four lowercase hex
digits. -/
def hex4 (v : Nat) : CStr :=
  [hexChar (v / 4096 % 16), hexChar (v / 256 % 16), hexChar (v / 16 % 16),
   hexChar (v % 16)]

/-- The two little-endian bytes of one grub_efi_uint16_t value (assignment to
a 16-bit field truncates, hence the mod 256 on each byte). -/
def u16Bytes (v : Nat) : Buf := [v % 256, v / 256 % 256]

/-- Reads a byte buffer as consecutive 16-bit little-endian values, exactly as
the C code indexes a grub_efi_uint16_t array of `size / 2` elements laid over
the buffer: a trailing odd byte is ignored. -/
def bytesToU16 : Buf → List Nat
  | [] => []
  | [_] => []
  | b0 :: b1 :: rest => (b0 + 256 * b1) :: bytesToU16 rest

/-- Modelled from the spec: the name-building step of
validate_bootorder_entries.  grub_strncpy is declared in grub/misc.h, not
under src/; per section 4.1 of the spec the last 4 characters of the literal
"Boot0000" are overwritten with the first 4 characters of the candidate text,
and a candidate shorter than 4 characters copies only the available
characters, leaving the remaining trailing '0' characters in place. -/
def bootVarName (entry : CStr) : CStr :=
  "Boot".toList ++ (entry.take 4 ++ ("0000".toList.drop (min entry.length 4)))

/-- validate_bootorder_entries (efibootvars.c lines 47-68): walk the candidate
list, fetch each candidate's variable, free the buffer on success, and return
the first candidate whose fetch fails; `Option.none` means all valid. -/
def validate_bootorder_entries (store : Store) : List CStr → Option CStr
  | [] => Option.none
  | e :: rest =>
      match store (bootVarName e) with
      | Option.none => some e
      | some _ => validate_bootorder_entries store rest

/-- The sequence of variable names validate_bootorder_entries fetches from the
store, in order (the fetch trace of the same loop). -/
def validateFetches (store : Store) : List CStr → List CStr
  | [] => []
  | e :: rest =>
      match store (bootVarName e) with
      | Option.none => [bootVarName e]
      | some _ => bootVarName e :: validateFetches store rest

/-- validate_bootorder_fmt (efibootvars.c lines 148-168): every argument must
consist only of hexadecimal digits, and the end pointer difference check
`entry - order[i] > 5` rejects exactly the strings of length greater than 4.
An empty argument passes both checks. -/
def validate_bootorder_fmt (order : List CStr) : Bool :=
  order.all (fun e => e.all isxdigit && decide (e.length ≤ 4))

/-- The name of the firmware BootOrder variable. -/
def bootOrderVarName : CStr := "BootOrder".toList

/-- The name of the firmware BootNext variable. -/
def bootNextVarName : CStr := "BootNext".toList

/-- Modelled from the spec: `set_variable(name, guid, buffer, size)` of
section 6; the store with one variable replaced. -/
def setVar (s : Store) (n : CStr) (b : Buf) : Store :=
  fun m => if m = n then some b else s m

/-- The argc*2-byte buffer assembled by the set-mode loop of
grub_cmd_bootorder (lines 223-226): each argument is parsed by grub_strtoul
and stored as one 16-bit value, in argument order.  The C code does not check
the parser's error status here, so a failed parse stores the parser's return
value 0. -/
def assembleOrder : List CStr → Buf
  | [] => []
  | a :: rest => u16Bytes ((grub_strtoul_hex a).getD 0) ++ assembleOrder rest

/-- Result of a mutating command: final status, the set_variable calls
performed (name and buffer, in order), and the resulting store. -/
structure SetRes where
  err : GrubErr
  writes : List (CStr × Buf)
  store : Store

/-- Set mode (argc >= 1) of grub_cmd_bootorder (efibootvars.c lines 208-231):
format check, then existence check, then a single atomic write of the
assembled argc*2-byte buffer.  Out-of-memory on the transient buffer is not
modelled (allocation is a host service; on OOM the code returns before the
write). -/
def grub_cmd_bootorder_set (store : Store) (args : List CStr) : SetRes :=
  if validate_bootorder_fmt args then
    match validate_bootorder_entries store args with
    | some _ => ⟨GrubErr.badArgument, [], store⟩
    | Option.none =>
        ⟨GrubErr.none, [(bootOrderVarName, assembleOrder args)],
         setVar store bootOrderVarName (assembleOrder args)⟩
  else ⟨GrubErr.badArgument, [], store⟩

/-- Outcome of query-mode grub_cmd_bootorder: the variable is absent, or the
printing loop runs with the given per-entry chunks, or the loop's unsigned
bound underflows. -/
inductive QueryOut where
  | absent
  | diverges
  | printed (chunks : List CStr)
  deriving DecidableEq

/-- The chunks emitted by the printing loop (lines 197-202): each of the first
`cnt - 1` entries as `printf "%04x, "`, then the last as `printf "%04x.\n"`. -/
def formatChunks : List Nat → List CStr
  | [] => []
  | [v] => [hex4 v ++ ".\n".toList]
  | v :: rest => (hex4 v ++ ", ".toList) :: formatChunks rest

/-- Query mode (argc = 0) of grub_cmd_bootorder (efibootvars.c lines 186-206):
fetch BootOrder, divide the byte length by 2 to obtain the entry count, print
the entries.  When the entry count is 0 (byte length 0 or 1) the loop bound
`num_entries - 1` underflows its unsigned type and the loop walks far past the
buffer: `QueryOut.diverges` marks that out-of-bounds non-terminating case. -/
def bootorderQuery (store : Store) : QueryOut :=
  match store bootOrderVarName with
  | Option.none => QueryOut.absent
  | some buf =>
      match bytesToU16 buf with
      | [] => QueryOut.diverges
      | v :: vs => QueryOut.printed (formatChunks (v :: vs))

/-- Result of grub_cmd_bootnext: final status, set_variable calls, resulting
store, and the line printed in query mode. -/
structure NextRes where
  err : GrubErr
  writes : List (CStr × Buf)
  store : Store
  printed : Option CStr

/-- Reading a fetched BootNext buffer as one little-endian 16-bit value. -/
def readU16 (b : Buf) : Nat := b.getD 0 0 + 256 * b.getD 1 0

/-- grub_cmd_bootnext (efibootvars.c lines 74-110).  argc = 0 queries the
variable.  Otherwise the code performs no arity check at all: it validates
args[0] through validate_bootorder_entries, parses args[0] with grub_strtoul
(this error is checked), and writes the truncated 16-bit value.  Arguments
after the first are never inspected. -/
def grub_cmd_bootnext (store : Store) (args : List CStr) : NextRes :=
  match args with
  | [] =>
      match store bootNextVarName with
      | some b =>
          ⟨GrubErr.none, [], store,
           some ("BootNext: ".toList ++ hex4 (readU16 b))⟩
      | Option.none =>
          ⟨GrubErr.none, [], store, some ("BootNext: not set.".toList)⟩
  | a :: _ =>
      match validate_bootorder_entries store [a] with
      | some _ => ⟨GrubErr.badArgument, [], store, Option.none⟩
      | Option.none =>
          match grub_strtoul_hex a with
          | Option.none => ⟨GrubErr.badNumber, [], store, Option.none⟩
          | some v =>
              ⟨GrubErr.none, [(bootNextVarName, u16Bytes v)],
               setVar store bootNextVarName (u16Bytes v), Option.none⟩

/-- The 16-bit code units the description scan of print_single_boot_entry can
observe: the units inside the fetched buffer first, then whatever memory lies
beyond the allocation.  The C scan `for (p = description; *p; p++);` has no
bound, so it sees this whole memory. -/
def scanMem (units : List Nat) (beyond : Nat → Nat) : Nat → Nat :=
  fun i => if h : i < units.length then units.get ⟨i, h⟩ else beyond (i - units.length)

/-- The result of the unbounded terminator scan: index `n` holds the first
zero code unit (the loop reads every unit at index at most `n`). -/
def isFirstZero (mem : Nat → Nat) (n : Nat) : Prop :=
  mem n = 0 ∧ ∀ i, i < n → mem i ≠ 0

instance isFirstZeroDec (mem : Nat → Nat) (n : Nat) : Decidable (isFirstZero mem n) := by
  unfold isFirstZero; infer_instance

/-- The description code units contained in a fetched load-option buffer: the
efi_load_option header is 6 bytes (uint32 attributes, uint16
filepathlistlength), the description units follow immediately. -/
def descUnitsAll (b : Buf) : List Nat := bytesToU16 (b.drop 6)

/-- Index of the first zero unit inside a unit list, if any: the bounded
counterpart of the scan, which agrees with the C loop exactly when a
terminator exists in bounds. -/
def firstZeroIdx : List Nat → Option Nat
  | [] => Option.none
  | u :: rest => if u = 0 then some 0 else (firstZeroIdx rest).map (fun k => k + 1)

/-- The grub_malloc size used for the description's UTF-8 text (line 131):
4 bytes per source code unit plus one byte for the explicit terminator. -/
def descAllocSize (n : Nat) : Nat := 4 * n + 1

/-- Modelled from the spec: standard UTF-16 to UTF-8 conversion
(grub_utf16_to_utf8 is declared in grub/charset.h, not under src/).  BMP code
points take 1 to 3 bytes, a surrogate pair takes 4 bytes for its 2 units, an
unpaired high surrogate is replaced by one '?' byte (63) and the following
unit is reprocessed; a trailing unpaired high surrogate emits nothing. -/
def u16ToU8 : List Nat → List Nat
  | [] => []
  | [c] =>
      if c ≤ 127 then [c]
      else if c ≤ 2047 then [192 + c / 64, 128 + c % 64]
      else if 55296 ≤ c ∧ c ≤ 56319 then []
      else [224 + c / 4096, 128 + c / 64 % 64, 128 + c % 64]
  | c :: c2 :: rest =>
      if c ≤ 127 then c :: u16ToU8 (c2 :: rest)
      else if c ≤ 2047 then
        (192 + c / 64) :: (128 + c % 64) :: u16ToU8 (c2 :: rest)
      else if 55296 ≤ c ∧ c ≤ 56319 then
        (if 56320 ≤ c2 ∧ c2 ≤ 57343 then
          (240 + ((c - 55296) * 1024 + (c2 - 56320) + 65536) / 262144)
            :: (128 + ((c - 55296) * 1024 + (c2 - 56320) + 65536) / 4096 % 64)
            :: (128 + ((c - 55296) * 1024 + (c2 - 56320) + 65536) / 64 % 64)
            :: (128 + ((c - 55296) * 1024 + (c2 - 56320) + 65536) % 64)
            :: u16ToU8 rest
        else 63 :: u16ToU8 (c2 :: rest))
      else (224 + c / 4096) :: (128 + c / 64 % 64) :: (128 + c % 64)
            :: u16ToU8 (c2 :: rest)

/-- print_single_boot_entry (efibootvars.c lines 117-145) on the defined
executions: fetch the variable (absence prints nothing and is not an error),
find the description terminator, convert the description to UTF-8 and print
`name: description`.  The model returns the printed (name, utf8) pair.  When
no terminator exists inside the buffer the C scan reads out of bounds (see
scanMem / isFirstZero); the model returns nothing for that undefined case.
Allocation failure is not modelled. -/
def print_single_boot_entry (store : Store) (name : CStr) : Option (CStr × List Nat) :=
  match store name with
  | Option.none => Option.none
  | some buf =>
      match firstZeroIdx (descUnitsAll buf) with
      | Option.none => Option.none
      | some k => some (name, u16ToU8 ((descUnitsAll buf).take k))

/-- The name filter of grub_cmd_bootentries (lines 255-267): the first four
characters are "Boot" (grub_strncmp), the next four are hexadecimal digits
(a shorter name puts the NUL or a later character where a digit must be), and
name[8] is the terminating NUL, i.e. the C string has length exactly 8. -/
def isBootEntryName (name : CStr) : Bool :=
  decide (name.take 4 = "Boot".toList) && decide (name.length = 8)
    && (name.drop 4).all isxdigit

/-- grub_cmd_bootentries (efibootvars.c lines 236-280) over the sequence of
names produced by the store's enumeration (modelled from the spec, section 6:
get_next_variable_name walks an opaque firmware order).  Matching names are
printed through print_single_boot_entry, non-matching names are skipped
without error. -/
def grub_cmd_bootentries (store : Store) (names : List CStr) : List (CStr × List Nat) :=
  names.filterMap
    (fun n => if isBootEntryName n then print_single_boot_entry store n else Option.none)

/-- Concrete store for the C3 counterexample: only Boot1234 exists. -/
def c3Store : Store :=
  fun n => if n = "Boot1234".toList then some [1] else Option.none

/-- Concrete store for the C9 counterexample and the C1 and C6 witnesses:
only Boot0001 exists. -/
def oneEntryStore : Store :=
  fun n => if n = "Boot0001".toList then some [9, 0] else Option.none

/-- Concrete store for the C8 counterexample: BootOrder holds a single byte,
so the entry count is 0 and the loop bound underflows. -/
def c8Store : Store :=
  fun n => if n = bootOrderVarName then some [7] else Option.none

/-- Concrete store for the C8 witness: BootOrder holds two entries. -/
def c8WitnessStore : Store :=
  fun n => if n = bootOrderVarName then some [1, 0, 2, 0] else Option.none

/-- Concrete store for the C4 witness: Boot0001 exists, Boot0002 does not. -/
def c4Store : Store :=
  fun n => if n = "Boot0001".toList then some [1] else Option.none

/-- A well-formed load option whose description is the UTF-16 string "Te":
6-byte header, then units 84 101 0. -/
def teBuf : Buf := [1, 0, 0, 0, 0, 0, 84, 0, 101, 0, 0, 0]

/-- A load-option buffer with no description terminator inside its 8 bytes:
6-byte header plus the single unit 65. -/
def unterminatedBuf : Buf := [1, 0, 0, 0, 0, 0, 65, 0]

/-- Concrete store for the C7 witness, matching the spec's section 8 example:
Boot0001 = "Win", Boot0002 = "Linux", plus the non-matching name
BootManagerFallback. -/
def c7Store : Store :=
  fun n =>
    if n = "Boot0001".toList then
      some [1, 0, 0, 0, 0, 0, 87, 0, 105, 0, 110, 0, 0, 0]
    else if n = "Boot0002".toList then
      some [1, 0, 0, 0, 0, 0, 76, 0, 105, 0, 110, 0, 117, 0, 120, 0, 0, 0]
    else if n = "BootManagerFallback".toList then some [1, 0]
    else Option.none

/-- Every value below 16 renders as a hexadecimal digit character. -/
theorem hexChar_isx : ∀ d, d < 16 → isxdigit (hexChar d) = true := by decide

/-- hexChar and hexDigitVal are mutually inverse on digit values. -/
theorem hexDigitVal_hexChar : ∀ d, d < 16 → hexDigitVal (hexChar d) = d := by decide

/-- hex4 always yields four characters. -/
theorem hex4_length (v : Nat) : (hex4 v).length = 4 := rfl

/-- Every character of a hex4 rendering is a hexadecimal digit. -/
theorem hex4_all_isx (v : Nat) : (hex4 v).all isxdigit = true := by
  have h1 := hexChar_isx (v / 4096 % 16) (Nat.mod_lt _ (by norm_num))
  have h2 := hexChar_isx (v / 256 % 16) (Nat.mod_lt _ (by norm_num))
  have h3 := hexChar_isx (v / 16 % 16) (Nat.mod_lt _ (by norm_num))
  have h4 := hexChar_isx (v % 16) (Nat.mod_lt _ (by norm_num))
  simp [hex4, h1, h2, h3, h4]

/-- Parsing the canonical 4-digit rendering of a 16-bit value recovers it. -/
theorem strtoul_hex4 (v : Nat) (hv : v < 65536) :
    grub_strtoul_hex (hex4 v) = some v := by
  have h1 := hexChar_isx (v / 4096 % 16) (Nat.mod_lt _ (by norm_num))
  have h2 := hexChar_isx (v / 256 % 16) (Nat.mod_lt _ (by norm_num))
  have h3 := hexChar_isx (v / 16 % 16) (Nat.mod_lt _ (by norm_num))
  have h4 := hexChar_isx (v % 16) (Nat.mod_lt _ (by norm_num))
  have e1 := hexDigitVal_hexChar (v / 4096 % 16) (Nat.mod_lt _ (by norm_num))
  have e2 := hexDigitVal_hexChar (v / 256 % 16) (Nat.mod_lt _ (by norm_num))
  have e3 := hexDigitVal_hexChar (v / 16 % 16) (Nat.mod_lt _ (by norm_num))
  have e4 := hexDigitVal_hexChar (v % 16) (Nat.mod_lt _ (by norm_num))
  simp [grub_strtoul_hex, hex4, strtoulHexAux, h1, h2, h3, h4, e1, e2, e3, e4]
  omega

/-- The validator reports all-valid exactly when every candidate's variable
fetch succeeds. -/
theorem validate_none_iff (store : Store) (entries : List CStr) :
    validate_bootorder_entries store entries = Option.none ↔
      ∀ e ∈ entries, store (bootVarName e) ≠ Option.none := by
  induction entries with
  | nil => simp [validate_bootorder_entries]
  | cons e rest ih =>
      cases h : store (bootVarName e) with
      | none =>
          simp only [validate_bootorder_entries, h]
          constructor
          · intro hc; exact Option.noConfusion hc
          · intro hall; exact absurd h (hall e (List.mem_cons_self e rest))
      | some b =>
          simp only [validate_bootorder_entries, h]
          rw [ih]
          constructor
          · intro hall x hx
            rcases List.mem_cons.1 hx with rfl | hx2
            · rw [h]; exact fun hc => Option.noConfusion hc
            · exact hall x hx2
          · intro hall x hx
            exact hall x (List.mem_cons_of_mem e hx)

/-- When a failing candidate follows a run of valid ones, the validator
returns that candidate and fetches exactly the names up to and including
it. -/
theorem validate_first (store : Store) :
    ∀ (l : List CStr) (e : CStr) (r : List CStr),
      (∀ x ∈ l, store (bootVarName x) ≠ Option.none) →
      store (bootVarName e) = Option.none →
      validate_bootorder_entries store (l ++ e :: r) = some e ∧
        validateFetches store (l ++ e :: r) = (l ++ [e]).map bootVarName := by
  intro l
  induction l with
  | nil =>
      intro e r _ he
      simp [validate_bootorder_entries, validateFetches, he]
  | cons x l2 ih =>
      intro e r hl he
      have hx : store (bootVarName x) ≠ Option.none := hl x (List.mem_cons_self x l2)
      cases hstore : store (bootVarName x) with
      | none => exact absurd hstore hx
      | some b =>
          have hrec := ih e r (fun y hy => hl y (List.mem_cons_of_mem x hy)) he
          simp [validate_bootorder_entries, validateFetches, hstore, hrec.1, hrec.2]

/-- The assembled buffer always holds two bytes per argument. -/
theorem assembleOrder_length (args : List CStr) :
    (assembleOrder args).length = 2 * args.length := by
  induction args with
  | nil => rfl
  | cons a rest ih =>
      simp [assembleOrder, u16Bytes, List.length_append, ih]
      omega

/-- The 16-bit view of a buffer has one value per byte pair. -/
theorem bytesToU16_length : ∀ b : Buf, (bytesToU16 b).length = b.length / 2
  | [] => rfl
  | [_] => by simp [bytesToU16]
  | b0 :: b1 :: rest => by
      simp [bytesToU16, bytesToU16_length rest]
      omega

/-- The 16-bit view depends only on the first 2 * (length / 2) bytes: a
trailing odd byte is never read. -/
theorem bytesToU16_take : ∀ b : Buf,
    bytesToU16 (b.take (2 * (b.length / 2))) = bytesToU16 b
  | [] => rfl
  | [_] => by simp [bytesToU16]
  | b0 :: b1 :: rest => by
      rw [show 2 * ((b0 :: b1 :: rest).length / 2)
            = (2 * (rest.length / 2) + 1) + 1 by simp; omega]
      rw [List.take_succ_cons, List.take_succ_cons]
      simp [bytesToU16, bytesToU16_take rest]

/-- The printing loop emits one chunk per entry. -/
theorem formatChunks_length : ∀ vals : List Nat,
    (formatChunks vals).length = vals.length
  | [] => rfl
  | [_] => rfl
  | v :: v2 :: rest => by
      simp [formatChunks, formatChunks_length (v2 :: rest)]

/-- Writing the canonical renderings of 16-bit values and re-reading the
buffer as 16-bit values is the identity. -/
theorem bytesToU16_assemble (L : List Nat) (h : ∀ v ∈ L, v < 65536) :
    bytesToU16 (assembleOrder (L.map hex4)) = L := by
  induction L with
  | nil => rfl
  | cons v rest ih =>
      have hv : v < 65536 := h v (List.mem_cons_self v rest)
      have hr := ih (fun x hx => h x (List.mem_cons_of_mem v hx))
      simp [assembleOrder, strtoul_hex4 v hv, u16Bytes, bytesToU16, hr]
      omega

/-- Worst-case UTF-8 expansion of UTF-16 text: three bytes per source code
unit. -/
theorem u16ToU8_length_le : ∀ l : List Nat, (u16ToU8 l).length ≤ 3 * l.length
  | [] => by simp [u16ToU8]
  | [c] => by
      rw [u16ToU8]
      split_ifs <;> simp
  | c :: c2 :: rest => by
      have ih := u16ToU8_length_le (c2 :: rest)
      have ih2 := u16ToU8_length_le rest
      rw [u16ToU8]
      split_ifs <;> simp only [List.length_cons] at ih ih2 ⊢ <;> omega

/-- Inside the buffer, the scan memory agrees with the buffer contents. -/
theorem scanMem_inBuf (units : List Nat) (beyond : Nat → Nat) (i : Nat)
    (h : i < units.length) : scanMem units beyond i = units.get ⟨i, h⟩ := by
  simp [scanMem, h]

/-- A successful print of a boot entry prints that entry's own name. -/
theorem print_single_fst (store : Store) (n : CStr) (p : CStr × List Nat)
    (h : print_single_boot_entry store n = some p) : p.1 = n := by
  cases hs : store n with
  | none => simp [print_single_boot_entry, hs] at h
  | some b =>
      cases hz : firstZeroIdx (descUnitsAll b) with
      | none => simp [print_single_boot_entry, hs, hz] at h
      | some k =>
          cases p with
          | mk p1 p2 =>
              simp [print_single_boot_entry, hs, hz] at h
              exact h.1.symm

/-- Claim C1: in bootorder set mode no set_variable call occurs unless every
argument passes the format check and then the existence check; a failure of
either phase rejects the whole command with a bad-argument error leaving the
BootOrder variable (and the whole store) unchanged, and when both phases pass
exactly one write of the fully assembled argc*2-byte buffer is performed. -/
theorem c1_bootorder_two_phase (store : Store) (args : List CStr)
    (_hargs : args ≠ []) :
    ((validate_bootorder_fmt args = false ∨
        validate_bootorder_entries store args ≠ Option.none) →
      grub_cmd_bootorder_set store args = ⟨GrubErr.badArgument, [], store⟩) ∧
    (validate_bootorder_fmt args = true →
      validate_bootorder_entries store args = Option.none →
      grub_cmd_bootorder_set store args =
          ⟨GrubErr.none, [(bootOrderVarName, assembleOrder args)],
           setVar store bootOrderVarName (assembleOrder args)⟩ ∧
        (assembleOrder args).length = 2 * args.length) := by
  constructor
  · intro h
    rcases h with h | h
    · simp [grub_cmd_bootorder_set, h]
    · cases hv : validate_bootorder_entries store args with
      | none => exact absurd hv h
      | some e =>
          by_cases hf : validate_bootorder_fmt args
          · simp [grub_cmd_bootorder_set, hf, hv]
          · simp [grub_cmd_bootorder_set, hf]
  · intro hf hv
    exact ⟨by simp [grub_cmd_bootorder_set, hf, hv], assembleOrder_length args⟩

/-- Witness for C1: a valid one-argument set performs exactly the single
2-byte write. -/
theorem c1_witness :
    ([hex4 1] ≠ ([] : List CStr)) ∧
      validate_bootorder_fmt [hex4 1] = true ∧
      validate_bootorder_entries oneEntryStore [hex4 1] = Option.none ∧
      (grub_cmd_bootorder_set oneEntryStore [hex4 1] =
          ⟨GrubErr.none, [(bootOrderVarName, assembleOrder [hex4 1])],
           setVar oneEntryStore bootOrderVarName (assembleOrder [hex4 1])⟩ ∧
        (assembleOrder [hex4 1]).length = 2 * ([hex4 1] : List CStr).length) :=
  ⟨by decide, by decide, by decide,
   (c1_bootorder_two_phase oneEntryStore [hex4 1] (by decide)).2
     (by decide) (by decide)⟩

/-- Claim C2 (amended): when the description contains a zero code unit within
the retrieved buffer's byte length — the documented load-option invariant —
the terminator scan stops strictly inside the buffer, so the scan and the
subsequent conversion (which touches only the units before the terminator)
read no unit outside the buffer, whatever lies beyond it.  Without an
in-bounds terminator the unbounded C scan reads past the buffer (see the
counterexample). -/
theorem c2_scan_in_bounds (buf : Buf) (beyond : Nat → Nat) (n : Nat)
    (hzero : 0 ∈ descUnitsAll buf)
    (hscan : isFirstZero (scanMem (descUnitsAll buf) beyond) n) :
    n < (descUnitsAll buf).length ∧
      ((descUnitsAll buf).take n).length = n := by
  rcases List.mem_iff_get.mp hzero with ⟨⟨j, hj⟩, hget⟩
  have hn : n < (descUnitsAll buf).length := by
    by_contra hn
    push_neg at hn
    have hjn : j < n := lt_of_lt_of_le hj hn
    exact hscan.2 j hjn (by rw [scanMem_inBuf _ _ j hj]; exact hget)
  exact ⟨hn, by rw [List.length_take]; omega⟩

/-- Counterexample for C2 as stated: an 8-byte load option whose single
description unit is nonzero.  With zeroed memory right after the allocation
the scan terminates at unit index 1, one past the buffer's unit length — the
loop read memory outside the retrieved buffer. -/
theorem c2_counterexample :
    isFirstZero (scanMem (descUnitsAll unterminatedBuf) (fun _ => 0)) 1 ∧
      ¬ (1 < (descUnitsAll unterminatedBuf).length) := by
  constructor
  · decide
  · decide

/-- Witness for C2: a terminated description ("Te") scans to index 2, inside
the three in-buffer units. -/
theorem c2_witness :
    (0 ∈ descUnitsAll teBuf) ∧
      isFirstZero (scanMem (descUnitsAll teBuf) (fun _ => 5)) 2 ∧
      (2 < (descUnitsAll teBuf).length ∧
        ((descUnitsAll teBuf).take 2).length = 2) :=
  ⟨by decide, by decide,
   c2_scan_in_bounds teBuf (fun _ => 5) 2 (by decide) (by decide)⟩

/-- Claim C3 (amended): bootorder rejects, with a bad-argument error and no
write, every argument list containing a non-hex character or a string longer
than 4 characters; an empty string passes the format check and is rejected
only when the name built from it (Boot0000) is inaccessible.  bootnext
performs no format check at all: it never writes when its argument is empty
or starts with a non-hex character (the parse fails), but a longer-than-4
all-hex argument can be truncated and written — see the counterexample. -/
theorem c3_reject_malformed (store : Store) (args : List CStr) :
    ((∃ e ∈ args, e.all isxdigit = false ∨ 4 < e.length) →
      grub_cmd_bootorder_set store args = ⟨GrubErr.badArgument, [], store⟩) ∧
    (([] : CStr) ∈ args → store (bootVarName []) = Option.none →
      grub_cmd_bootorder_set store args = ⟨GrubErr.badArgument, [], store⟩) ∧
    (∀ (a : CStr) (rest : List CStr),
      (a = [] ∨ ∃ c, a.head? = some c ∧ isxdigit c = false) →
      (grub_cmd_bootnext store (a :: rest)).writes = [] ∧
        (grub_cmd_bootnext store (a :: rest)).err ≠ GrubErr.none) := by
  refine ⟨?_, ?_, ?_⟩
  · rintro ⟨e, he, hbad⟩
    have hf : validate_bootorder_fmt args = false := by
      by_contra hft
      rw [Bool.not_eq_false] at hft
      rw [validate_bootorder_fmt, List.all_eq_true] at hft
      have hone := hft e he
      rw [Bool.and_eq_true] at hone
      rcases hbad with h | h
      · rw [hone.1] at h; exact Bool.noConfusion h
      · have := of_decide_eq_true hone.2; omega
    simp [grub_cmd_bootorder_set, hf]
  · intro hmem hstore
    by_cases hf : validate_bootorder_fmt args
    · cases hv : validate_bootorder_entries store args with
      | none =>
          exact absurd hstore ((validate_none_iff store args).mp hv [] hmem)
      | some e => simp [grub_cmd_bootorder_set, hf, hv]
    · simp [grub_cmd_bootorder_set, hf]
  · intro a rest hmal
    cases hv : validate_bootorder_entries store [a] with
    | some e =>
        refine ⟨by simp [grub_cmd_bootnext, hv], by simp [grub_cmd_bootnext, hv]⟩
    | none =>
        have hp : grub_strtoul_hex a = Option.none := by
          rcases hmal with rfl | ⟨c, hc, hcx⟩
          · rfl
          · cases a with
            | nil => rfl
            | cons c0 tl =>
                have : c0 = c := by simpa using hc
                subst this
                simp [grub_strtoul_hex, hcx]
        refine ⟨by simp [grub_cmd_bootnext, hv, hp],
                by simp [grub_cmd_bootnext, hv, hp]⟩

/-- Counterexample for C3 as stated: the argument "12345" is longer than 4
characters, yet with Boot1234 existing, bootnext truncates it to 16 bits and
performs a write with success status — the request is not rejected and
firmware state changes. -/
theorem c3_counterexample :
    4 < ("12345".toList : CStr).length ∧
      (grub_cmd_bootnext c3Store ["12345".toList]).err = GrubErr.none ∧
      (grub_cmd_bootnext c3Store ["12345".toList]).writes =
        [(bootNextVarName, [69, 35])] := by
  refine ⟨by decide, by decide, by decide⟩

/-- Witness for C3 (amended): a non-hex argument makes bootorder reject with
no write. -/
theorem c3_witness :
    (∃ e ∈ [("xyz".toList : CStr)], e.all isxdigit = false ∨ 4 < e.length) ∧
      grub_cmd_bootorder_set oneEntryStore ["xyz".toList] =
        ⟨GrubErr.badArgument, [], oneEntryStore⟩ :=
  ⟨by decide, (c3_reject_malformed oneEntryStore ["xyz".toList]).1 (by decide)⟩

/-- Claim C4: the entry validator returns all-valid (NULL) exactly when every
candidate's fetch succeeds, and otherwise returns precisely the first
candidate in list order whose fetch fails, fetching nothing after it. -/
theorem c4_validator_first_failure (store : Store) (entries : List CStr) :
    (validate_bootorder_entries store entries = Option.none ↔
        ∀ e ∈ entries, store (bootVarName e) ≠ Option.none) ∧
    (∀ (l : List CStr) (e : CStr) (r : List CStr),
      entries = l ++ e :: r →
      (∀ x ∈ l, store (bootVarName x) ≠ Option.none) →
      store (bootVarName e) = Option.none →
      validate_bootorder_entries store entries = some e ∧
        validateFetches store entries = (l ++ [e]).map bootVarName) := by
  refine ⟨validate_none_iff store entries, ?_⟩
  intro l e r hsplit hl he
  subst hsplit
  exact validate_first store l e r hl he

/-- Witness for C4: Boot0001 valid, 0002 invalid, 0003 untouched — the
validator returns 0002 and fetched only Boot0001 and Boot0002. -/
theorem c4_witness :
    (["0001".toList, "0002".toList, "0003".toList] =
        ([("0001".toList : CStr)] ++ "0002".toList :: ["0003".toList])) ∧
      (∀ x ∈ [("0001".toList : CStr)], c4Store (bootVarName x) ≠ Option.none) ∧
      c4Store (bootVarName ("0002".toList)) = Option.none ∧
      (validate_bootorder_entries c4Store
          ["0001".toList, "0002".toList, "0003".toList] = some ("0002".toList) ∧
        validateFetches c4Store ["0001".toList, "0002".toList, "0003".toList] =
          ([("0001".toList : CStr)] ++ ["0002".toList]).map bootVarName) :=
  ⟨by decide, by decide, by decide,
   (c4_validator_first_failure c4Store
       ["0001".toList, "0002".toList, "0003".toList]).2
     [("0001".toList)] ("0002".toList) ["0003".toList]
     (by decide) (by decide) (by decide)⟩

/-- Claim C5 (spec-modelled grub_strncpy): the variable name built for a
candidate is always exactly 8 characters, and a candidate shorter than 4
characters overwrites only its own characters, the remaining trailing '0'
characters of the literal "Boot0000" staying in place. -/
theorem c5_name_shape (e : CStr) :
    (bootVarName e).length = 8 ∧
      (e.length < 4 →
        bootVarName e = "Boot".toList ++ e ++ List.replicate (4 - e.length) '0') := by
  constructor
  · have h0 : ("0000".toList : List Char).length = 4 := rfl
    have hB : ("Boot".toList : List Char).length = 4 := rfl
    simp [bootVarName, List.length_append, List.length_take, List.length_drop,
          h0, hB]
    omega
  · intro h4
    have ht : e.take 4 = e := List.take_of_length_le (by omega)
    have hm : min e.length 4 = e.length := by omega
    have hdrop : ∀ k, k < 4 → ("0000".toList : List Char).drop k
        = List.replicate (4 - k) '0' := by decide
    rw [bootVarName, ht, hm, hdrop e.length h4, List.append_assoc]

/-- Witness for C5: the one-character candidate "1" yields the 8-character
name "Boot1000". -/
theorem c5_witness :
    (bootVarName ['1']).length = 8 ∧
      (['1'] : CStr).length < 4 ∧
      bootVarName ['1'] = "Boot".toList ++ ['1'] ++ List.replicate 3 '0' :=
  ⟨(c5_name_shape ['1']).1, by decide, (c5_name_shape ['1']).2 (by decide)⟩

/-- Claim C6: setting the boot order to a list of pre-existing valid entries
and then querying prints back exactly that list (each entry in its canonical
4-digit lowercase rendering, as given). -/
theorem c6_set_then_query (store : Store) (L : List Nat)
    (hne : L ≠ []) (hbound : ∀ v ∈ L, v < 65536)
    (hvalid : ∀ v ∈ L, store (bootVarName (hex4 v)) ≠ Option.none) :
    (grub_cmd_bootorder_set store (L.map hex4)).err = GrubErr.none ∧
      bootorderQuery (grub_cmd_bootorder_set store (L.map hex4)).store =
        QueryOut.printed (formatChunks L) := by
  have hf : validate_bootorder_fmt (L.map hex4) = true := by
    rw [validate_bootorder_fmt, List.all_eq_true]
    intro e he
    rcases List.mem_map.1 he with ⟨v, hv, rfl⟩
    rw [Bool.and_eq_true]
    exact ⟨hex4_all_isx v, by simp [hex4]⟩
  have hv : validate_bootorder_entries store (L.map hex4) = Option.none := by
    rw [validate_none_iff]
    intro e he
    rcases List.mem_map.1 he with ⟨v, hvm, rfl⟩
    exact hvalid v hvm
  have hset : grub_cmd_bootorder_set store (L.map hex4) =
      ⟨GrubErr.none, [(bootOrderVarName, assembleOrder (L.map hex4))],
       setVar store bootOrderVarName (assembleOrder (L.map hex4))⟩ := by
    simp [grub_cmd_bootorder_set, hf, hv]
  rw [hset]
  refine ⟨rfl, ?_⟩
  have hrt : bytesToU16 (assembleOrder (L.map hex4)) = L :=
    bytesToU16_assemble L hbound
  obtain ⟨v, vs, rfl⟩ := List.exists_cons_of_ne_nil hne
  have hg : setVar store bootOrderVarName (assembleOrder ((v :: vs).map hex4))
      bootOrderVarName = some (assembleOrder ((v :: vs).map hex4)) := by
    simp [setVar]
  simp only [List.map_cons] at hg hrt
  simp [bootorderQuery, hg, hrt]

/-- Witness for C6: setting the order to the single pre-existing entry 0001
and querying prints back exactly that entry. -/
theorem c6_witness :
    (([1] : List Nat) ≠ []) ∧ (∀ v ∈ ([1] : List Nat), v < 65536) ∧
      (∀ v ∈ ([1] : List Nat),
        oneEntryStore (bootVarName (hex4 v)) ≠ Option.none) ∧
      ((grub_cmd_bootorder_set oneEntryStore (([1] : List Nat).map hex4)).err =
          GrubErr.none ∧
        bootorderQuery
            (grub_cmd_bootorder_set oneEntryStore (([1] : List Nat).map hex4)).store =
          QueryOut.printed (formatChunks [1])) :=
  ⟨by decide, by decide, by decide,
   c6_set_then_query oneEntryStore [1] (by decide) (by decide) (by decide)⟩

/-- Claim C7: bootentries prints, via the load-option decoder, exactly the
enumerated names of the form "Boot" plus 4 hex digits (8 characters total),
in enumeration order, skipping every non-matching name without error —
provided each matching name decodes (its variable is readable with a
terminated description). -/
theorem c7_bootentries_filter (store : Store) (names : List CStr)
    (hok : ∀ n ∈ names, isBootEntryName n = true →
      (print_single_boot_entry store n).isSome = true) :
    (grub_cmd_bootentries store names).map Prod.fst =
      names.filter (fun n => isBootEntryName n) := by
  induction names with
  | nil => rfl
  | cons n rest ih =>
      have ihr := ih (fun x hx hbx => hok x (List.mem_cons_of_mem n hx) hbx)
      by_cases hb : isBootEntryName n
      · have hsome := hok n (List.mem_cons_self n rest) hb
        rcases Option.isSome_iff_exists.mp hsome with ⟨p, hp⟩
        have hfst := print_single_fst store n p hp
        simp only [grub_cmd_bootentries, List.filterMap_cons, hb, if_pos,
                   hp, List.filter_cons] at ihr ⊢
        simp [hb, hfst, ihr]
      · simp only [grub_cmd_bootentries, List.filterMap_cons, hb,
                   List.filter_cons] at ihr ⊢
        simp [hb, ihr]

/-- Witness for C7: the spec's own example — Boot0001, Boot0002 and the
non-matching BootManagerFallback; exactly the two matching names print. -/
theorem c7_witness :
    (∀ n ∈ [("Boot0001".toList : CStr), "Boot0002".toList,
        "BootManagerFallback".toList],
      isBootEntryName n = true →
        (print_single_boot_entry c7Store n).isSome = true) ∧
      (grub_cmd_bootentries c7Store
          [("Boot0001".toList : CStr), "Boot0002".toList,
           "BootManagerFallback".toList]).map Prod.fst =
        [("Boot0001".toList : CStr), "Boot0002".toList,
         "BootManagerFallback".toList].filter (fun n => isBootEntryName n) :=
  ⟨by decide, c7_bootentries_filter c7Store _ (by decide)⟩

/-- Claim C8 (amended): for a present BootOrder buffer of byte length at
least 2, the query prints exactly length/2 entries, each the 4-digit hex
chunk of one of the first length/2 16-bit values (comma separators, trailing
period), reading only those values.  For byte length 0 or 1 the entry count
is 0 and the unsigned loop bound underflows, so the loop reads out of bounds
instead of printing 0 entries — see the counterexample. -/
theorem c8_query_count (store : Store) (buf : Buf)
    (hget : store bootOrderVarName = some buf) (hlen : 2 ≤ buf.length) :
    bootorderQuery store = QueryOut.printed (formatChunks (bytesToU16 buf)) ∧
      (bytesToU16 buf).length = buf.length / 2 ∧
      bytesToU16 (buf.take (2 * (buf.length / 2))) = bytesToU16 buf ∧
      (formatChunks (bytesToU16 buf)).length = buf.length / 2 := by
  have hl := bytesToU16_length buf
  have hnem : bytesToU16 buf ≠ [] := by
    intro h0
    rw [h0] at hl
    simp at hl
    omega
  refine ⟨?_, hl, bytesToU16_take buf, by rw [formatChunks_length]; exact hl⟩
  obtain ⟨v, vs, hv⟩ := List.exists_cons_of_ne_nil hnem
  simp [bootorderQuery, hget, hv]

/-- Counterexample for C8 as stated: a present 1-byte BootOrder buffer
(entry count floor(1/2) = 0).  The code does not print 0 entries: the
unsigned loop bound underflows and the loop walks out of bounds
(QueryOut.diverges), so the claimed print of floor(n/2) entries fails. -/
theorem c8_counterexample :
    bootorderQuery c8Store = QueryOut.diverges ∧
      ([7] : Buf).length / 2 = 0 ∧
      bootorderQuery c8Store ≠ QueryOut.printed (formatChunks (bytesToU16 [7])) := by
  refine ⟨by decide, by decide, by decide⟩

/-- Witness for C8 (amended): a 4-byte BootOrder prints exactly its two
entries. -/
theorem c8_witness :
    c8WitnessStore bootOrderVarName = some [1, 0, 2, 0] ∧
      2 ≤ ([1, 0, 2, 0] : Buf).length ∧
      (bootorderQuery c8WitnessStore =
          QueryOut.printed (formatChunks (bytesToU16 [1, 0, 2, 0])) ∧
        (bytesToU16 [1, 0, 2, 0]).length = ([1, 0, 2, 0] : Buf).length / 2 ∧
        bytesToU16 (([1, 0, 2, 0] : Buf).take
            (2 * (([1, 0, 2, 0] : Buf).length / 2))) = bytesToU16 [1, 0, 2, 0] ∧
        (formatChunks (bytesToU16 [1, 0, 2, 0])).length =
          ([1, 0, 2, 0] : Buf).length / 2) :=
  ⟨by decide, by decide,
   c8_query_count c8WitnessStore [1, 0, 2, 0] (by decide) (by decide)⟩

/-- Claim C9 (amended): bootnext with two or more arguments is not a usage
error; the code never inspects the argument count beyond distinguishing zero,
so every extra argument is ignored and the call behaves exactly as the
one-argument form on the first argument. -/
theorem c9_extra_args_ignored (store : Store) (a : CStr) (rest : List CStr) :
    grub_cmd_bootnext store (a :: rest) = grub_cmd_bootnext store [a] := rfl

/-- Counterexample for C9 as stated: two arguments produce no usage error —
the call succeeds and writes BootNext from the first argument. -/
theorem c9_counterexample :
    (grub_cmd_bootnext oneEntryStore ["0001".toList, "0002".toList]).err =
        GrubErr.none ∧
      (grub_cmd_bootnext oneEntryStore ["0001".toList, "0002".toList]).writes =
        [(bootNextVarName, [1, 0])] := by
  refine ⟨by decide, by decide⟩

/-- Claim C10: the decoder's output allocation is 4 bytes per source code
unit plus one byte, the one byte being the explicitly written terminator;
the converted UTF-8 text (at most 3 bytes per unit) plus that terminator
always fits inside the allocation, so the conversion never writes past it. -/
theorem c10_utf8_fits (units : List Nat) :
    (u16ToU8 units).length + 1 ≤ descAllocSize units.length := by
  have h := u16ToU8_length_le units
  rw [descAllocSize]
  omega

end GrubEfi
